import Mathlib

/-!
Verification development for the download-URL resolution core of the
`catalog-geonetwork` plugin (source: the resolver module containing
`isUrlValid`, `negotiateWfsFormat`, `detectFormatFromHeaders`, `analyzeLink`
and `findBestDownloadUrl`, together with the helpers `asArray` and `getText`).

Modelling conventions (shallow embedding of the TypeScript source):

* Parsed-XML metadata values (the output of `fast-xml-parser`) are modelled by
  the inductive type `JVal`: strings, integers (the parser converts numeric
  tag values to numbers), arrays and objects.  JavaScript `undefined` (a
  missing field) is modelled by `Option JVal` at access sites.  JS truthiness
  is modelled by `truthy` ( `''` and `0` are falsy, objects and arrays are
  truthy).  `fast-xml-parser` never places `null` inside a parsed tree, so
  `JVal` has no null constructor; member access is therefore total.
* `x.toLowerCase()` on a value of type `any` succeeds only when the value is
  a string; on any other value JavaScript raises `TypeError`.  Fallible spots
  are embedded in `Except Unit`; an `.error ()` outcome models an uncaught
  JS exception escaping the function.
* Strings are compared and searched exactly as in JS: `includesStr`,
  `endsWithStr` and `lowerStr` model `String.prototype.includes`, `endsWith`
  and `toLowerCase` (ASCII case mapping; the inputs of interest are ASCII).
* `URLSearchParams` is modelled by an ordered association list
  `List (String × String)` with the WHATWG operations `spGet`, `spSet`
  (replace first occurrence, drop the rest, else append) and `spDelete`,
  plus `parseQuery` / `serializeParams` for the `application/x-www-form-urlencoded`
  round trip (percent-decoding is byte-wise; exact for ASCII).
* `new URL(s)` is modelled by `parseUrl`: the WHATWG validity of the part
  before the first `?` is abstracted as the oracle `Net.validUrlBase`
  (normalisation of the base is not modelled; fragments are not modelled).
  `axios` itself requires a parseable absolute URL before any network I/O
  happens, so the axios wrappers are gated on the same oracle.
* The network is an oracle (`Net.headResp`, `Net.getResp`) mapping a URL and
  the configured timeout to `none` (network error / timeout, which axios
  raises and the source catches) or `some` response; `validateStatus` logic
  is applied by each embedded call site exactly as configured in the source.
  Every issued round trip is recorded in a `Req` trace returned alongside
  the result, so "no network call" claims are about the trace.
* `candidates.sort((a, b) => b.score - a.score)` relies on the ES2019
  guarantee that `Array.prototype.sort` is stable; it is embedded as
  `List.insertionSort` with the total preorder "score not smaller", which is
  a stable sort realising exactly that guarantee.
* The `log` collaborator is purely observational in the source (no
  control-flow impact) and is omitted from the embedding.
-/

/-! ### JavaScript string primitives -/

/-- Model of `String.prototype.toLowerCase` (ASCII case mapping). -/
def lowerStr (s : String) : String := ⟨s.data.map Char.toLower⟩

/-- Model of `a.includes(b)`. -/
def includesStr (a b : String) : Bool := decide (b.data <:+: a.data)

/-- Model of `a.endsWith(b)`. -/
def endsWithStr (a b : String) : Bool := decide (b.data <:+ a.data)

/-! ### JavaScript value model -/

/-- A value produced by `fast-xml-parser`: string, number, array or object. -/
inductive JVal where
  | str : String → JVal
  | num : Int → JVal
  | arr : List JVal → JVal
  | obj : List (String × JVal) → JVal
  deriving BEq

/-- JS truthiness of a parsed value. -/
def truthy : JVal → Bool
  | .str s => s ≠ ""
  | .num n => n ≠ 0
  | .arr _ => true
  | .obj _ => true

/-- JS member access `v[k]`; `none` models `undefined`. -/
def getJField (v : JVal) (k : String) : Option JVal :=
  match v with
  | .obj fields => (fields.find? (fun p => p.1 = k)).map (fun p => p.2)
  | _ => none

/-- JS truthiness of a possibly-`undefined` value. -/
def truthyOpt : Option JVal → Bool
  | none => false
  | some v => truthy v

/-- JS `a || b` where `a` may be `undefined`. -/
def jsOr (a : Option JVal) (b : JVal) : JVal :=
  match a with
  | some v => if truthy v then v else b
  | none => b

/-- Source helper `asArray` from `common.ts`:
`if (!input) return []; return Array.isArray(input) ? input : [input]`. -/
def asArray (input : Option JVal) : List JVal :=
  match input with
  | none => []
  | some v => if ¬ truthy v then [] else
      match v with
      | .arr l => l
      | _ => [v]

/-- Source helper `getText` from `common.ts`.  Note that the source returns
`input.CharacterString` (resp. `input['#text']`) unchecked, so the result is
an arbitrary JS value, not necessarily a string; the declared TS result type `string`
is not enforced at runtime. -/
def getText (input : Option JVal) : JVal :=
  match input with
  | none => .str ""
  | some v =>
    if ¬ truthy v then .str ""
    else match v with
      | .str s => .str s
      | _ =>
        let cs := getJField v "CharacterString"
        if truthyOpt cs then cs.getD (.str "")
        else
          let tx := getJField v "#text"
          if truthyOpt tx then tx.getD (.str "") else .str ""

/-- JS `x.toLowerCase()` on an arbitrary value: a `TypeError` unless `x` is a
string. -/
def jsToLower : JVal → Except Unit String
  | .str s => .ok (lowerStr s)
  | _ => .error ()

/-! ### URLSearchParams model -/

/-- Characters that `URLSearchParams` serialisation leaves unescaped. -/
def formUnreserved (c : Char) : Bool :=
  c.isAlphanum || c = '*' || c = '-' || c = '.' || c = '_'

/-- Upper-case hexadecimal digit. -/
def hexDigitChar (n : Nat) : Char :=
  if n < 10 then Char.ofNat (48 + n) else Char.ofNat (55 + n)

/-- Value of a hexadecimal digit character. -/
def hexVal (c : Char) : Option Nat :=
  if '0' ≤ c ∧ c ≤ '9' then some (c.toNat - 48)
  else if 'A' ≤ c ∧ c ≤ 'F' then some (c.toNat - 55)
  else if 'a' ≤ c ∧ c ≤ 'f' then some (c.toNat - 87)
  else none

/-- UTF-8 bytes of one character. -/
def utf8Bytes (c : Char) : List Nat :=
  let n := c.toNat
  if n < 128 then [n]
  else if n < 2048 then [192 + n / 64, 128 + n % 64]
  else if n < 65536 then [224 + n / 4096, 128 + (n / 64) % 64, 128 + n % 64]
  else [240 + n / 262144, 128 + (n / 4096) % 64, 128 + (n / 64) % 64, 128 + n % 64]

/-- Percent-encode one byte as `%XX`. -/
def encodeByte (b : Nat) : List Char :=
  ['%', hexDigitChar (b / 16 % 16), hexDigitChar (b % 16)]

/-- Serialisation of one component, percent-encoded as in `application/x-www-form-urlencoded`. -/
def encodeComp (s : String) : String :=
  ⟨s.data.foldr (fun c acc =>
    if formUnreserved c then c :: acc
    else if c = ' ' then '+' :: acc
    else (utf8Bytes c).foldr (fun b a => encodeByte b ++ a) acc) []⟩

/-- Percent-decoding of one component (byte-wise; exact for ASCII, which is
the only alphabet the resolver manipulates). -/
def decodeChars : List Char → List Char
  | [] => []
  | '%' :: h1 :: h2 :: rest =>
    match hexVal h1, hexVal h2 with
    | some a, some b => Char.ofNat (16 * a + b) :: decodeChars rest
    | _, _ => '%' :: decodeChars (h1 :: h2 :: rest)
  | '+' :: rest => ' ' :: decodeChars rest
  | c :: rest => c :: decodeChars rest

/-- Percent-decoding of one component. -/
def decodeComp (s : String) : String := ⟨decodeChars s.data⟩

/-- Split a character list at every occurrence of a separator character
(structurally recursive so that concrete inputs evaluate definitionally;
the separators of interest — `?`, `&`, `=` — are single characters, for
which this coincides with JS `String.prototype.split`). -/
def splitOnChar (sep : Char) : List Char → List (List Char)
  | [] => [[]]
  | c :: rest =>
    if c = sep then [] :: splitOnChar sep rest
    else match splitOnChar sep rest with
      | [] => [[c]]
      | g :: gs => (c :: g) :: gs

/-- JS `s.split(sep)` for a one-character separator. -/
def splitStr (sep : Char) (s : String) : List String :=
  (splitOnChar sep s.data).map (fun l => ⟨l⟩)

/-- Join strings with a separator (JS `Array.prototype.join`). -/
def joinSep (sep : String) : List String → String
  | [] => ""
  | [x] => x
  | x :: xs => x ++ sep ++ joinSep sep xs

/-- Model of `new URLSearchParams(query)`: ordered key/value pairs, split on `&`, each
piece split at its first `=`, both sides percent-decoded. -/
def parseQuery (s : String) : List (String × String) :=
  (splitStr '&' s).filterMap (fun piece =>
    if piece = "" then none
    else match splitStr '=' piece with
      | [] => none
      | k :: rest => some (decodeComp k, decodeComp (joinSep "=" rest)))

/-- Model of `URLSearchParams.prototype.toString`. -/
def serializeParams (l : List (String × String)) : String :=
  joinSep "&" (l.map (fun p => encodeComp p.1 ++ "=" ++ encodeComp p.2))

/-- Model of `URLSearchParams.prototype.get`: first value for the key, if any. -/
def spGet (l : List (String × String)) (k : String) : Option String :=
  (l.find? (fun p => p.1 = k)).map (fun p => p.2)

/-- Model of `URLSearchParams.prototype.delete`: drop every pair with the key. -/
def spDelete (l : List (String × String)) (k : String) : List (String × String) :=
  l.filter (fun p => p.1 ≠ k)

/-- Model of `URLSearchParams.prototype.set`: replace the first pair with the key and
drop the others; if the key is absent, append the pair at the end. -/
def spSet (l : List (String × String)) (k v : String) : List (String × String) :=
  match l with
  | [] => [(k, v)]
  | p :: rest =>
    if p.1 = k then (k, v) :: spDelete rest k
    else p :: spSet rest k v

/-! ### Network and URL model -/

/-- An HTTP response as observed through axios: status code, body coerced to a
string (`String(response.data)`), and the `content-type` header with the
source's `|| ''` default already applied. -/
structure HttpResponse where
  status : Nat
  body : String
  contentType : String
  deriving BEq

/-- One network round trip issued by the resolver, with the configured
timeout in milliseconds. -/
inductive Req where
  | headReq : String → Nat → Req
  | getReq : String → Nat → Req
  deriving BEq

/-- The environment: WHATWG URL-base validity and the behaviour of the remote
servers.  `none` models a network error or timeout (axios rejects; the source
catches). -/
structure Net where
  validUrlBase : String → Bool
  headResp : String → Nat → Option HttpResponse
  getResp : String → Nat → Option HttpResponse

/-- A parsed `new URL(...)` object: the part before the first `?` and its
query parameters. -/
structure JsUrl where
  base : String
  params : List (String × String)
  deriving BEq

/-- Split a URL string at the first `?` (everything after it is query). -/
def splitFirstQ (s : String) : String × String :=
  match splitStr '?' s with
  | [] => (s, "")
  | b :: rest => (b, joinSep "?" rest)

/-- JS `const [baseUrl, existingQuery] = url.split('?')`: destructuring keeps
only the first two segments, silently dropping anything after a second `?`. -/
def jsSplitQ (s : String) : String × String :=
  match splitStr '?' s with
  | [] => ("", "")
  | [b] => (b, "")
  | b :: q :: _ => (b, q)

/-- Model of `new URL(s)`: fails (JS `TypeError`) unless the base is a valid
absolute URL, which is abstracted by the `Net.validUrlBase` oracle. -/
def parseUrl (net : Net) (s : String) : Option JsUrl :=
  let bq := splitFirstQ s
  if net.validUrlBase bq.1 then some ⟨bq.1, parseQuery bq.2⟩ else none

/-- Model of `URL.prototype.toString` (query re-serialised from the parameters). -/
def urlToString (u : JsUrl) : String :=
  if u.params.isEmpty then u.base else u.base ++ "?" ++ serializeParams u.params

/-- The pagination parameters forced by the WFS service test:
`COUNT=1` and `MAXFEATURES=1`. -/
def withCMF (ps : List (String × String)) : List (String × String) :=
  spSet (spSet ps "COUNT" "1") "MAXFEATURES" "1"

/-! ### Source `isUrlValid` (the Prober) -/

/-- Embedding of the source function `isUrlValid(url, log, isWFSTest)`.
Returns the boolean outcome and the trace of issued round trips.

WFS service-test mode: `new URL(url)`, force `COUNT=1&MAXFEATURES=1`, then
`axios.get` with `timeout: 5000` and `validateStatus: s < 500`; a status of
`500+`, a thrown network error, a status `>= 400`, an `ExceptionReport` /
`ServiceException` marker in the body, or an XML content type answering a
JSON-family `OUTPUTFORMAT` request all yield `false`.

Plain mode: `axios.head` with `timeout: 3000` and
`validateStatus: 200 <= s < 400`; any rejection yields `false`.  axios
requires a parseable absolute URL before it opens a connection, so an
unparseable URL yields `false` without a round trip. -/
def isUrlValid (net : Net) (url : String) (isWFSTest : Bool) : Bool × List Req :=
  if isWFSTest then
    match parseUrl net url with
    | none => (false, [])
    | some u0 =>
      let tp := withCMF u0.params
      let testUrl := urlToString ⟨u0.base, tp⟩
      match net.getResp testUrl 5000 with
      | none => (false, [.getReq testUrl 5000])
      | some r =>
        if 500 ≤ r.status then (false, [.getReq testUrl 5000])
        else if 400 ≤ r.status then (false, [.getReq testUrl 5000])
        else if includesStr r.body "ExceptionReport" ∨ includesStr r.body "ServiceException" then
          (false, [.getReq testUrl 5000])
        else
          let contentType := r.contentType
          let requestedFormat := (spGet tp "OUTPUTFORMAT").getD ""
          if includesStr requestedFormat "json" ∧ includesStr contentType "xml" then
            (false, [.getReq testUrl 5000])
          else (true, [.getReq testUrl 5000])
  else
    match parseUrl net url with
    | none => (false, [])
    | some _ =>
      match net.headResp url 3000 with
      | none => (false, [.headReq url 3000])
      | some r =>
        if 200 ≤ r.status ∧ r.status < 400 then (true, [.headReq url 3000])
        else (false, [.headReq url 3000])

/-! ### Source `detectFormatFromHeaders` (the Content-Type Sniffer) -/

/-- The fixed content-type mapping table of `detectFormatFromHeaders`, in
source order (note that `kml ∨ xml` precedes the tsv/spreadsheet/gpx rows,
exactly as in the source). -/
def sniffTable (ct : String) : Option String :=
  if includesStr ct "application/json" ∨ includesStr ct "application/geo+json" then
    some "geojson"
  else if includesStr ct "application/zip" ∨ includesStr ct "application/x-zip-compressed" then
    some "shapefile"
  else if includesStr ct "text/csv" ∨ includesStr ct "application/csv" then
    some "csv"
  else if includesStr ct "kml" ∨ includesStr ct "xml" then
    some "kml"
  else if includesStr ct "text/tab-separated-values" ∨ includesStr ct "text/tsv" then
    some "tsv"
  else if includesStr ct "application/vnd.openxmlformats-officedocument.spreadsheetml.sheet" then
    some "xlsx"
  else if includesStr ct "application/vnd.ms-excel" then
    some "xls"
  else if includesStr ct "application/vnd.oasis.opendocument.spreadsheet" then
    some "ods"
  else if includesStr ct "application/gpx+xml" ∨ includesStr ct "gpx" then
    some "gpx"
  else if includesStr ct "application/vnd.google-earth.kmz" ∨ includesStr ct "kmz" then
    some "kmz"
  else none

/-- Embedding of `detectFormatFromHeaders(url, log)`: `axios.head` with
`timeout: 5000` and `validateStatus: s < 400`, then the
`if (!contentType) return null` guard and the fixed mapping table.  Any
rejection yields `none`. -/
def detectFormatFromHeaders (net : Net) (url : String) : Option String × List Req :=
  match parseUrl net url with
  | none => (none, [])
  | some _ =>
    match net.headResp url 5000 with
    | none => (none, [.headReq url 5000])
    | some r =>
      if 400 ≤ r.status then (none, [.headReq url 5000])
      else
        (if ¬ truthy (.str r.contentType) then none else sniffTable r.contentType,
          [.headReq url 5000])

/-! ### Source `negotiateWfsFormat` (the Format Negotiator) -/

/-- The query-parameter keys stripped (case-insensitively) before the
canonical WFS parameters are re-added. -/
def strippedKeys : List String :=
  ["service", "request", "version", "typename", "typenames", "outputformat", "srsname"]

/-- The fixed ordered list of `OUTPUTFORMAT` tokens tried, with the resolver
format each maps to (source order preserved). -/
def wfsFormatsToTry : List (String × String) :=
  [("application/json; subtype=geojson", "geojson"),
   ("geojson", "geojson"),
   ("application/json", "geojson"),
   ("application/vnd.geo+json", "geojson"),
   ("json", "geojson"),
   ("SHAPE-ZIP", "shapefile"),
   ("shapezip", "shapefile"),
   ("application/zip", "shapefile"),
   ("application/x-shapefile", "shapefile"),
   ("csv", "csv"),
   ("text/csv", "csv"),
   ("kml", "kml"),
   ("application/vnd.google-earth.kml+xml", "kml")]

/-- JS `layerName || resourceId` (an empty or missing layer name is falsy). -/
def layerOr (layerName : Option String) (resourceId : String) : String :=
  match layerName with
  | some l => if l = "" then resourceId else l
  | none => resourceId

/-- The negotiated parameter list before `OUTPUTFORMAT` is chosen: the
original query parsed, every key matching `strippedKeys` case-insensitively
deleted, then the canonical WFS parameters set. -/
def negotiatedParams (originalUrl resourceId : String) (layerName : Option String) :
    List (String × String) :=
  let params0 := parseQuery (jsSplitQ originalUrl).2
  let keysToDelete := (params0.map (fun p => p.1)).filter
    (fun k => strippedKeys.contains (lowerStr k))
  let params1 := keysToDelete.foldl spDelete params0
  spSet (spSet (spSet (spSet params1
    "SERVICE" "WFS") "VERSION" "2.0.0") "REQUEST" "GetFeature")
    "TYPENAMES" (layerOr layerName resourceId)

/-- Parameters of one negotiation attempt: `OUTPUTFORMAT` set to the token. -/
def testParamsOf (originalUrl resourceId : String) (layerName : Option String)
    (f : String × String) : List (String × String) :=
  spSet (negotiatedParams originalUrl resourceId layerName) "OUTPUTFORMAT" f.1

/-- The URL of one negotiation attempt:
`${baseUrl}?${testParams.toString()}`. -/
def testUrlOf (originalUrl resourceId : String) (layerName : Option String)
    (f : String × String) : String :=
  (jsSplitQ originalUrl).1 ++ "?" ++ serializeParams (testParamsOf originalUrl resourceId layerName f)

/-- A resolution result: the final `{url, format}` pair. -/
structure UrlFmt where
  url : String
  format : String
  deriving BEq

/-- The negotiation loop: try each `OUTPUTFORMAT` token in order with the
service-test prober, returning on the first success. -/
def tryFormats (net : Net) (originalUrl resourceId : String) (layerName : Option String) :
    List (String × String) → Option UrlFmt × List Req
  | [] => (none, [])
  | f :: rest =>
    let testUrl := testUrlOf originalUrl resourceId layerName f
    let v := isUrlValid net testUrl true
    if v.1 then (some ⟨testUrl, f.2⟩, v.2)
    else
      let r := tryFormats net originalUrl resourceId layerName rest
      (r.1, v.2 ++ r.2)

/-- Embedding of the source function
`negotiateWfsFormat(originalUrl, resourceId, layerName, log)`. -/
def negotiateWfsFormat (net : Net) (originalUrl resourceId : String)
    (layerName : Option String) : Option UrlFmt × List Req :=
  tryFormats net originalUrl resourceId layerName wfsFormatsToTry

/-! ### Source `analyzeLink` (the Candidate Scorer) -/

/-- A scored download candidate. -/
structure DownloadCandidate where
  url : String
  format : String
  score : Nat
  layerName : Option String
  deriving BEq

/-- The classification decision list of `analyzeLink`, applied to the link's
URL, its already-lowercased protocol and its name, all known to be strings.
First matching rule wins; the trailing rule keeps unmatched links with
format `unknown` and score 1. -/
def classifyLink (url protocol nm : String) : DownloadCandidate :=
  let u := lowerStr url
  let p := protocol
  let n := lowerStr nm
  if includesStr u "service=wfs" ∧ includesStr u "outputformat=" then
    let format :=
      if includesStr u "geojson" ∨ includesStr u "json" then "geojson"
      else if includesStr u "csv" then "csv"
      else if includesStr u "zip" ∨ includesStr u "shape" then "shapefile"
      else "wfs_service"
    ⟨url, format, 50, none⟩
  else if includesStr u "/api/data/" ∨ includesStr u "/api/records/" then
    ⟨url, "shapefile", 11, none⟩
  else if includesStr u "shape-zip" ∨ endsWithStr u ".zip" ∨ includesStr n "shapefile" then
    ⟨url, "shapefile", 8, none⟩
  else if includesStr u "geojson" ∨ includesStr p "geo+json" ∨ includesStr n "geojson" then
    ⟨url, "geojson", 10, none⟩
  else if includesStr u "/csv" ∨ includesStr u ".csv" ∨ includesStr p "text/csv" ∨ nm = "csv" then
    ⟨url, "csv", 6, none⟩
  else if endsWithStr u ".kml" ∨ includesStr p "kml" then
    ⟨url, "kml", 4, none⟩
  else if (includesStr u "/json" ∨ includesStr u ".json" ∨ includesStr p "application/json" ∨ n = "json")
      ∧ ¬ includesStr u "geojson" then
    ⟨url, "json", 5, none⟩
  else if includesStr p "ogc:wfs" ∨ includesStr p "wfs" ∨ includesStr u "service=wfs" then
    ⟨url, "wfs_service", 2, some nm⟩
  else ⟨url, "unknown", 1, none⟩

/-- Embedding of the source function `analyzeLink(linkWrapper)`.  The source
eagerly lowercases the protocol text, checks `!url`, then lowercases the URL
and the name; each lowercasing raises `TypeError` when `getText` produced a
non-string value. -/
def analyzeLink (linkWrapper : JVal) : Except Unit (Option DownloadCandidate) :=
  let link := jsOr (getJField linkWrapper "CI_OnlineResource") linkWrapper
  let urlV := getText ((getJField link "linkage").bind (fun l => getJField l "URL"))
  match getText (getJField link "protocol") with
  | .str ps =>
    let protocol := lowerStr ps
    let nameV := getText (getJField link "name")
    if ¬ truthy urlV then .ok none
    else match urlV, nameV with
      | .str url, .str nm => .ok (some (classifyLink url protocol nm))
      | _, _ => .error ()
  | _ => .error ()

/-- Run `analyzeLink` over the extracted links, keeping the candidates in
order (the source's push-into-array loop); an exception propagates. -/
def analyzeAll : List JVal → Except Unit (List DownloadCandidate)
  | [] => .ok []
  | l :: rest =>
    match analyzeLink l with
    | .error e => .error e
    | .ok none => analyzeAll rest
    | .ok (some c) =>
      match analyzeAll rest with
      | .error e => .error e
      | .ok cs => .ok (c :: cs)

/-- Source sort `candidates.sort((a, b) => b.score - a.score)`: the ES2019-stable
descending sort by score. -/
def sortCandidates (l : List DownloadCandidate) : List DownloadCandidate :=
  l.insertionSort (fun a b => b.score ≤ a.score)

/-! ### Source `findBestDownloadUrl` (the Resolver) -/

/-- Source line `const root = metadata.MD_Metadata || metadata`. -/
def rootOf (metadata : JVal) : JVal := jsOr (getJField metadata "MD_Metadata") metadata

/-- Source navigation `root?.distributionInfo?.MD_Distribution`. -/
def dinfoOf (metadata : JVal) : Option JVal :=
  (getJField (rootOf metadata) "distributionInfo").bind (fun v => getJField v "MD_Distribution")

/-- The `declaredFormats` loop body over `asArray(distributionFormat)`:
each `getText(f.MD_Format?.name).toLowerCase()` raises on a non-string text
value; non-empty names are collected.  The source never reads the resulting
array, but the traversal (and hence the exception) still happens. -/
def collectFormats : List JVal → Except Unit (List String)
  | [] => .ok []
  | f :: rest =>
    match jsToLower (getText ((getJField f "MD_Format").bind (fun m => getJField m "name"))) with
    | .error e => .error e
    | .ok formatName =>
      match collectFormats rest with
      | .error e => .error e
      | .ok l => .ok (if formatName ≠ "" then formatName :: l else l)

/-- Source guard `if (distributionInfo.distributionFormat) { ... }`: the dead
`declaredFormats` computation, kept because its `TypeError` can escape. -/
def declaredFormatsOf (dinfo : JVal) : Except Unit (List String) :=
  if truthyOpt (getJField dinfo "distributionFormat") then
    collectFormats (asArray (getJField dinfo "distributionFormat"))
  else .ok []

/-- The Link Extractor: walk `transferOptions[*] →
(MD_DigitalTransferOptions || transfer) → onLine[*]`, flattening
array-or-scalar shapes with `asArray`. -/
def allLinksOf (dinfo : JVal) : List JVal :=
  (asArray (getJField dinfo "transferOptions")).foldl (fun acc transfer =>
    let digitalTransfer := jsOr (getJField transfer "MD_DigitalTransferOptions") transfer
    if truthy digitalTransfer ∧ truthyOpt (getJField digitalTransfer "onLine") then
      acc ++ asArray (getJField digitalTransfer "onLine")
    else acc) []

/-- Everything in `findBestDownloadUrl` before the sort: guard on
`distributionInfo`, the dead `declaredFormats` traversal, link extraction,
the `allLinks.length === 0` early return, and candidate scoring.
`ok none` is an early `return null`; `ok (some cands)` carries the scored
candidates. -/
def prepStage (metadata : JVal) : Except Unit (Option (List DownloadCandidate)) :=
  match dinfoOf metadata with
  | none => .ok none
  | some dinfo =>
    if ¬ truthy dinfo then .ok none
    else match declaredFormatsOf dinfo with
    | .error e => .error e
    | .ok _ =>
      let allLinks := allLinksOf dinfo
      if allLinks.isEmpty then .ok none
      else match analyzeAll allLinks with
        | .error e => .error e
        | .ok cands => .ok (some cands)

/-- Outcome of the candidate-validation loop: an immediate return of a
negotiated result, or loop exit with the accepted candidate (if any). -/
inductive SelOut where
  | negotiated : UrlFmt → SelOut
  | done : Option DownloadCandidate → SelOut

/-- The candidate-validation loop of `findBestDownloadUrl`, with the
`bestCandidate` accumulator threaded through.  A `wfs_service` candidate is
probed plainly and accepted on success; on failure the negotiator runs and
its success returns immediately.  Any other candidate is probed plainly and
accepted on success.  The source's third arm (`else if (!bestCandidate)`)
is kept verbatim although its guard is the negation of the first two and it
can never run. -/
def selectLoop (net : Net) (resourceId : String) :
    Option DownloadCandidate → List DownloadCandidate → SelOut × List Req
  | best, [] => (.done best, [])
  | best, c :: rest =>
    if c.format = "wfs_service" then
      let v := isUrlValid net c.url false
      if v.1 then (.done (some c), v.2)
      else
        let w := negotiateWfsFormat net c.url resourceId c.layerName
        match w.1 with
        | some r => (.negotiated r, v.2 ++ w.2)
        | none =>
          let s := selectLoop net resourceId best rest
          (s.1, v.2 ++ w.2 ++ s.2)
    else if c.format ≠ "wfs_service" then
      let v := isUrlValid net c.url false
      if v.1 then (.done (some c), v.2)
      else
        let s := selectLoop net resourceId best rest
        (s.1, v.2 ++ s.2)
    else
      let best2 := if best.isNone then some c else best
      let s := selectLoop net resourceId best2 rest
      (s.1, s.2)

/-- The tail of the post-processing: `if (format === 'unknown')` run the
sniffer, keep its format on success and `return null` on failure; otherwise
return `{url, format}`. -/
def finishStage (net : Net) (url format : String) : Except Unit (Option UrlFmt) × List Req :=
  if format = "unknown" then
    let d := detectFormatFromHeaders net url
    match d.1 with
    | some f => (.ok (some ⟨url, f⟩), d.2)
    | none => (.ok none, d.2)
  else (.ok (some ⟨url, format⟩), [])

/-- Post-processing of the accepted candidate: the `/api/data/` branch
(`new URL(url)` — unguarded, so an unparseable URL raises — strip the
`format` parameter, sniff, default to `shapefile`), then the
`unknown`-format branch. -/
def postProcess (net : Net) (best : DownloadCandidate) : Except Unit (Option UrlFmt) × List Req :=
  if includesStr best.url "/api/data/" then
    match parseUrl net best.url with
    | none => (.error (), [])
    | some uo =>
      let cleanUrl := urlToString ⟨uo.base, spDelete uo.params "format"⟩
      let d := detectFormatFromHeaders net cleanUrl
      match d.1 with
      | some detected =>
        let f := finishStage net cleanUrl detected
        (f.1, d.2 ++ f.2)
      | none =>
        let f := finishStage net cleanUrl "shapefile"
        (f.1, d.2 ++ f.2)
  else finishStage net best.url best.format

/-- Embedding of the source function
`findBestDownloadUrl(metadata, resourceId, log)`: preparation, stable sort
descending by score, the validation loop, then post-processing.  The first
component is the JS outcome (`.error ()` models an uncaught exception, `.ok`
the returned value); the second lists every network round trip issued. -/
def findBestDownloadUrl (net : Net) (metadata : JVal) (resourceId : String) :
    Except Unit (Option UrlFmt) × List Req :=
  match prepStage metadata with
  | .error e => (.error e, [])
  | .ok none => (.ok none, [])
  | .ok (some cands) =>
    let sorted := sortCandidates cands
    if sorted.isEmpty then (.ok none, [])
    else
      let s := selectLoop net resourceId none sorted
      match s.1 with
      | .negotiated r => (.ok (some r), s.2)
      | .done none => (.ok none, s.2)
      | .done (some best) =>
        let p := postProcess net best
        (p.1, s.2 ++ p.2)

/-- Number of scored candidates a metadata document yields (0 when
resolution exits before scoring). -/
def candCount (metadata : JVal) : Nat :=
  match prepStage metadata with
  | .ok (some cands) => cands.length
  | _ => 0

/-! ### Helper lemmas: strings and parameter lists -/

theorem lowerStr_data (s : String) : (lowerStr s).data = s.data.map Char.toLower := rfl

theorem includesStr_lower {a b : String} (h : includesStr a b = true) :
    includesStr (lowerStr a) (lowerStr b) = true := by
  simp only [includesStr, decide_eq_true_eq, lowerStr_data] at h ⊢
  exact h.map _

/-- Pairs carrying the fixed key `k`, in order. -/
def filterKey (l : List (String × String)) (k : String) : List (String × String) :=
  l.filter (fun p => p.1 = k)

theorem filterKey_spDelete {k k' : String} (h : k ≠ k') (l : List (String × String)) :
    filterKey (spDelete l k') k = filterKey l k := by
  unfold filterKey spDelete
  rw [List.filter_filter]
  apply List.filter_congr
  intro a _
  by_cases hk : a.1 = k
  · simp [hk, fun hne : k = k' => h hne]
  · simp [hk]

theorem mem_spDelete {kv : String × String} {l : List (String × String)} {k : String}
    (h : kv ∈ spDelete l k) : kv ∈ l ∧ kv.1 ≠ k := by
  unfold spDelete at h
  have h2 := List.mem_filter.mp h
  exact ⟨h2.1, by simpa using h2.2⟩

theorem spDelete_cons_pos {p : String × String} {k : String} (hp : p.1 = k)
    (rest : List (String × String)) : spDelete (p :: rest) k = spDelete rest k := by
  simp [spDelete, List.filter_cons, hp]

theorem spDelete_cons_neg {p : String × String} {k : String} (hp : ¬ p.1 = k)
    (rest : List (String × String)) : spDelete (p :: rest) k = p :: spDelete rest k := by
  simp [spDelete, List.filter_cons, hp]

theorem spGet_spDelete {k k' : String} (h : k ≠ k') (l : List (String × String)) :
    spGet (spDelete l k') k = spGet l k := by
  induction l with
  | nil => rfl
  | cons p rest ih =>
    by_cases hp : p.1 = k'
    · rw [spDelete_cons_pos hp, ih]
      unfold spGet
      rw [List.find?_cons_of_neg _ (fun hd => h (by rw [← of_decide_eq_true hd]; exact hp))]
    · rw [spDelete_cons_neg hp]
      unfold spGet
      by_cases hk : p.1 = k
      · rw [List.find?_cons_of_pos _ (by simp [hk]), List.find?_cons_of_pos _ (by simp [hk])]
      · rw [List.find?_cons_of_neg _ (by simp [hk]), List.find?_cons_of_neg _ (by simp [hk])]
        exact ih

theorem mem_spSet {kv : String × String} {l : List (String × String)} {k v : String}
    (h : kv ∈ spSet l k v) : kv ∈ l ∨ kv = (k, v) := by
  induction l with
  | nil =>
    unfold spSet at h
    right; simpa using h
  | cons p rest ih =>
    unfold spSet at h
    by_cases hp : p.1 = k
    · simp only [hp, if_true] at h
      rcases List.mem_cons.mp h with h1 | h1
      · right; exact h1
      · left; exact List.mem_cons_of_mem _ (mem_spDelete h1).1
    · simp only [hp, if_false] at h
      rcases List.mem_cons.mp h with h1 | h1
      · left; simp [h1]
      · rcases ih h1 with h2 | h2
        · left; exact List.mem_cons_of_mem _ h2
        · right; exact h2

theorem filterKey_spSet {k key : String} (h : k ≠ key) (l : List (String × String)) (v : String) :
    filterKey (spSet l key v) k = filterKey l k := by
  induction l with
  | nil =>
    unfold spSet filterKey
    simp [List.filter_cons, decide_eq_false (fun hk : key = k => h (hk ▸ rfl))]
  | cons p rest ih =>
    unfold spSet
    by_cases hp : p.1 = key
    · simp only [hp, if_true]
      unfold filterKey at *
      rw [List.filter_cons, List.filter_cons]
      have h1 : (decide ((key, v).1 = k)) = false :=
        decide_eq_false (fun hk => h (hk ▸ rfl))
      have h2 : (decide (p.1 = k)) = false :=
        decide_eq_false (fun hk => h (by rw [← hk, hp]))
      simp only [h1, h2, cond_false]
      exact filterKey_spDelete h rest
    · simp only [hp, if_false]
      unfold filterKey at *
      rw [List.filter_cons, List.filter_cons]
      cases hd : decide (p.1 = k) <;> simp only [cond_false, cond_true, ih]

theorem spGet_spSet_self (l : List (String × String)) (k v : String) :
    spGet (spSet l k v) k = some v := by
  induction l with
  | nil =>
    unfold spSet spGet
    rw [List.find?_cons_of_pos _ (by simp)]
    rfl
  | cons p rest ih =>
    unfold spSet
    by_cases hp : p.1 = k
    · simp only [hp, if_true]
      unfold spGet
      rw [List.find?_cons_of_pos _ (by simp)]
      rfl
    · simp only [hp, if_false]
      unfold spGet at ih ⊢
      rw [List.find?_cons_of_neg _ (by simp [hp])]
      exact ih

theorem spGet_spSet_other {k key : String} (h : k ≠ key) (l : List (String × String)) (v : String) :
    spGet (spSet l key v) k = spGet l k := by
  induction l with
  | nil =>
    unfold spSet spGet
    rw [List.find?_cons_of_neg _ (by simp; exact fun he => h he.symm)]
  | cons p rest ih =>
    unfold spSet
    by_cases hp : p.1 = key
    · simp only [hp, if_true]
      unfold spGet
      rw [List.find?_cons_of_neg _ (by simp; exact fun he => h he.symm),
        List.find?_cons_of_neg _ (fun hd => h (by rw [← of_decide_eq_true hd]; exact hp))]
      exact spGet_spDelete h rest
    · simp only [hp, if_false]
      unfold spGet at ih ⊢
      by_cases hk : p.1 = k
      · rw [List.find?_cons_of_pos _ (by simp [hk]), List.find?_cons_of_pos _ (by simp [hk])]
      · rw [List.find?_cons_of_neg _ (by simp [hk]), List.find?_cons_of_neg _ (by simp [hk])]
        exact ih

theorem mem_foldl_spDelete {kv : String × String} :
    ∀ (ks : List String) (l : List (String × String)), kv ∈ ks.foldl spDelete l → kv ∈ l := by
  intro ks
  induction ks with
  | nil => intro l h; exact h
  | cons a ks ih =>
    intro l h
    exact (mem_spDelete (ih (spDelete l a) h)).1

theorem notmem_foldl_spDelete {kv : String × String} {k' : String} :
    ∀ (ks : List String) (l : List (String × String)), k' ∈ ks →
      kv ∈ ks.foldl spDelete l → kv.1 ≠ k' := by
  intro ks
  induction ks with
  | nil => intro l h; exact absurd h (List.not_mem_nil _)
  | cons a ks ih =>
    intro l hk h
    rcases List.mem_cons.mp hk with h1 | h1
    · subst h1
      exact (mem_spDelete (mem_foldl_spDelete ks (spDelete l k') h)).2
    · exact ih (spDelete l a) h1 h

theorem filterKey_foldl_spDelete {k : String} :
    ∀ (ks : List String) (l : List (String × String)), (∀ k' ∈ ks, k ≠ k') →
      filterKey (ks.foldl spDelete l) k = filterKey l k := by
  intro ks
  induction ks with
  | nil => intro l _; rfl
  | cons a ks ih =>
    intro l h
    rw [List.foldl_cons, ih (spDelete l a) (fun k' hk' => h k' (List.mem_cons_of_mem _ hk')),
      filterKey_spDelete (h a (List.mem_cons_self _ _)) l]

/-! ### Helper lemmas: prober and sniffer -/

theorem isUrlValid_trace_le (net : Net) (u : String) (b : Bool) :
    (isUrlValid net u b).2.length ≤ 1 := by
  unfold isUrlValid
  cases b
  · rw [if_neg (by simp)]
    cases hp : parseUrl net u
    · simp
    · cases hr : net.headResp u 3000
      · simp [hr]
      · simp only [hr]
        split <;> simp
  · rw [if_pos rfl]
    cases hp : parseUrl net u
    · simp
    · rename_i u0
      cases hr : net.getResp (urlToString ⟨u0.base, withCMF u0.params⟩) 5000
      · simp [hr]
      · simp only [hr]
        repeat' split
        all_goals simp

theorem isUrlValid_plain_iff (net : Net) (u : String) :
    (isUrlValid net u false).1 = true ↔
      ((parseUrl net u).isSome = true ∧
        ∃ r, net.headResp u 3000 = some r ∧ 200 ≤ r.status ∧ r.status < 400) := by
  unfold isUrlValid
  rw [if_neg (by simp)]
  cases hp : parseUrl net u with
  | none => simp [hp]
  | some u0 =>
    simp only [hp]
    cases hr : net.headResp u 3000 with
    | none => simp [hr]
    | some r =>
      simp only [hr]
      by_cases hs : 200 ≤ r.status ∧ r.status < 400
      · rw [if_pos hs]
        exact iff_of_true rfl ⟨rfl, r, rfl, hs.1, hs.2⟩
      · rw [if_neg hs]
        refine iff_of_false (by simp) ?_
        rintro ⟨-, r2, hr2, h1, h2⟩
        cases hr2
        exact hs ⟨h1, h2⟩

theorem isUrlValid_plain_parse {net : Net} {u : String}
    (h : (isUrlValid net u false).1 = true) : (parseUrl net u).isSome = true :=
  ((isUrlValid_plain_iff net u).mp h).1

theorem isUrlValid_wfs_parse_none {net : Net} {u : String}
    (h : parseUrl net u = none) : isUrlValid net u true = (false, []) := by
  unfold isUrlValid
  simp [h]

theorem isUrlValid_wfs_iff (net : Net) (u : String) (u0 : JsUrl)
    (hp : parseUrl net u = some u0) :
    (isUrlValid net u true).1 = true ↔
      (∃ r, net.getResp (urlToString ⟨u0.base, withCMF u0.params⟩) 5000 = some r ∧
        r.status < 400 ∧
        includesStr r.body "ExceptionReport" = false ∧
        includesStr r.body "ServiceException" = false ∧
        ¬(includesStr ((spGet (withCMF u0.params) "OUTPUTFORMAT").getD "") "json" = true ∧
          includesStr r.contentType "xml" = true)) := by
  unfold isUrlValid
  rw [if_pos rfl]
  simp only [hp]
  cases hr : net.getResp (urlToString ⟨u0.base, withCMF u0.params⟩) 5000 with
  | none =>
    refine iff_of_false (by simp) ?_
    rintro ⟨r2, hr2, -⟩
    exact Option.noConfusion hr2
  | some r =>
    simp only [hr]
    by_cases h5 : 500 ≤ r.status
    · rw [if_pos h5]
      refine iff_of_false (by simp) ?_
      rintro ⟨r2, hr2, hlt, -, -, -⟩
      cases hr2
      omega
    · rw [if_neg h5]
      by_cases h4 : 400 ≤ r.status
      · rw [if_pos h4]
        refine iff_of_false (by simp) ?_
        rintro ⟨r2, hr2, hlt, -, -, -⟩
        cases hr2
        omega
      · rw [if_neg h4]
        by_cases hm : includesStr r.body "ExceptionReport" = true ∨ includesStr r.body "ServiceException" = true
        · rw [if_pos hm]
          refine iff_of_false (by simp) ?_
          rintro ⟨r2, hr2, -, hm1, hm2, -⟩
          cases hr2
          rcases hm with hm | hm
          · exact Bool.noConfusion (hm1.symm.trans hm)
          · exact Bool.noConfusion (hm2.symm.trans hm)
        · rw [if_neg hm]
          by_cases hx : includesStr ((spGet (withCMF u0.params) "OUTPUTFORMAT").getD "") "json" = true ∧
              includesStr r.contentType "xml" = true
          · rw [if_pos hx]
            refine iff_of_false (by simp) ?_
            rintro ⟨r2, hr2, -, -, -, hx2⟩
            cases hr2
            exact hx2 hx
          · rw [if_neg hx]
            push_neg at hm
            exact iff_of_true rfl
              ⟨r, rfl, by omega, by simpa using hm.1, by simpa using hm.2, hx⟩

/-- The formats the Content-Type Sniffer can report. -/
def sniffFormats : List String :=
  ["geojson", "shapefile", "csv", "kml", "tsv", "xlsx", "xls", "ods", "gpx", "kmz"]

theorem sniffTable_mem {ct f : String} (h : sniffTable ct = some f) : f ∈ sniffFormats := by
  unfold sniffTable at h
  repeat' split at h
  all_goals first
  | exact Option.noConfusion h
  | (injection h with h; subst h; decide)

theorem detect_trace_le (net : Net) (u : String) :
    (detectFormatFromHeaders net u).2.length ≤ 1 := by
  unfold detectFormatFromHeaders
  cases hp : parseUrl net u
  · simp
  · cases hr : net.headResp u 5000
    · simp [hr]
    · simp only [hr]
      split <;> simp

theorem detect_mem_sniffFormats {net : Net} {u : String} {f : String}
    (h : (detectFormatFromHeaders net u).1 = some f) : f ∈ sniffFormats := by
  unfold detectFormatFromHeaders at h
  cases hp : parseUrl net u <;> rw [hp] at h
  · exact Option.noConfusion h
  · cases hr : net.headResp u 5000 <;> rw [hr] at h
    · exact Option.noConfusion h
    · rename_i r
      dsimp only at h
      by_cases h4 : 400 ≤ r.status
      · rw [if_pos h4] at h
        exact Option.noConfusion h
      · rw [if_neg h4] at h
        by_cases hct : truthy (JVal.str r.contentType)
        · rw [if_neg (by simp [hct])] at h
          exact sniffTable_mem h
        · rw [if_pos (by simp [hct])] at h
          exact Option.noConfusion h

theorem detect_ne_unknown {net : Net} {u : String} {f : String}
    (h : (detectFormatFromHeaders net u).1 = some f) : f ≠ "unknown" := by
  have hm := detect_mem_sniffFormats h
  intro hf
  subst hf
  revert hm
  decide

/-! ### Helper lemmas: negotiator -/

theorem tryFormats_fst (net : Net) (o rid : String) (lay : Option String) (l : List (String × String)) :
    (tryFormats net o rid lay l).1 =
      (l.find? (fun f => (isUrlValid net (testUrlOf o rid lay f) true).1)).map
        (fun f => (⟨testUrlOf o rid lay f, f.2⟩ : UrlFmt)) := by
  induction l with
  | nil => rfl
  | cons f rest ih =>
    unfold tryFormats
    by_cases hv : (isUrlValid net (testUrlOf o rid lay f) true).1 = true
    · rw [@List.find?_cons_of_pos _ (fun g => (isUrlValid net (testUrlOf o rid lay g) true).1) f rest hv]
      simp [hv]
    · rw [@List.find?_cons_of_neg _ (fun g => (isUrlValid net (testUrlOf o rid lay g) true).1) f rest hv]
      simp only [Bool.not_eq_true] at hv
      simp [hv, ih]

theorem tryFormats_trace_le (net : Net) (o rid : String) (lay : Option String) :
    ∀ l : List (String × String), (tryFormats net o rid lay l).2.length ≤ l.length := by
  intro l
  induction l with
  | nil => simp [tryFormats]
  | cons f rest ih =>
    unfold tryFormats
    have h1 := isUrlValid_trace_le net (testUrlOf o rid lay f) true
    by_cases hv : (isUrlValid net (testUrlOf o rid lay f) true).1 = true
    · simp only [hv, if_true, List.length_cons]
      omega
    · simp only [Bool.not_eq_true] at hv
      simp only [hv, Bool.false_eq_true, if_false, List.length_cons, List.length_append]
      omega

theorem negotiate_some {net : Net} {o rid : String} {lay : Option String} {r : UrlFmt}
    (h : (negotiateWfsFormat net o rid lay).1 = some r) :
    ∃ f ∈ wfsFormatsToTry, r = ⟨testUrlOf o rid lay f, f.2⟩ := by
  unfold negotiateWfsFormat at h
  rw [tryFormats_fst] at h
  rcases Option.map_eq_some'.mp h with ⟨f, hf, hr⟩
  exact ⟨f, List.mem_of_find?_eq_some hf, hr.symm⟩

theorem negotiate_trace_le (net : Net) (o rid : String) (lay : Option String) :
    (negotiateWfsFormat net o rid lay).2.length ≤ 13 :=
  tryFormats_trace_le net o rid lay wfsFormatsToTry

theorem negotiate_some_format {net : Net} {o rid : String} {lay : Option String} {r : UrlFmt}
    (h : (negotiateWfsFormat net o rid lay).1 = some r) :
    r.format ∈ (["geojson", "shapefile", "csv", "kml"] : List String) := by
  rcases negotiate_some h with ⟨f, hf, hr⟩
  subst hr
  have : ∀ g ∈ wfsFormatsToTry, g.2 ∈ (["geojson", "shapefile", "csv", "kml"] : List String) := by
    decide
  exact this f hf

theorem negotiatedParams_stripped {o rid : String} {lay : Option String}
    {kv : String × String} (hm : kv ∈ negotiatedParams o rid lay)
    (hs : strippedKeys.contains (lowerStr kv.1) = true) :
    kv ∈ [("SERVICE", "WFS"), ("VERSION", "2.0.0"), ("REQUEST", "GetFeature"),
          ("TYPENAMES", layerOr lay rid)] := by
  unfold negotiatedParams at hm
  rcases mem_spSet hm with hm | he
  rotate_left
  · simp [he]
  rcases mem_spSet hm with hm | he
  rotate_left
  · simp [he]
  rcases mem_spSet hm with hm | he
  rotate_left
  · simp [he]
  rcases mem_spSet hm with hm | he
  rotate_left
  · simp [he]
  exfalso
  have hmem : kv ∈ parseQuery (jsSplitQ o).2 := mem_foldl_spDelete _ _ hm
  have hkd : kv.1 ∈ ((parseQuery (jsSplitQ o).2).map (fun p => p.1)).filter
      (fun k => strippedKeys.contains (lowerStr k)) := by
    refine List.mem_filter.mpr ⟨List.mem_map.mpr ⟨kv, hmem, rfl⟩, hs⟩
  exact notmem_foldl_spDelete _ _ hkd hm rfl

theorem negotiatedParams_canonical (o rid : String) (lay : Option String) :
    spGet (negotiatedParams o rid lay) "SERVICE" = some "WFS" ∧
    spGet (negotiatedParams o rid lay) "VERSION" = some "2.0.0" ∧
    spGet (negotiatedParams o rid lay) "REQUEST" = some "GetFeature" ∧
    spGet (negotiatedParams o rid lay) "TYPENAMES" = some (layerOr lay rid) := by
  unfold negotiatedParams
  refine ⟨?_, ?_, ?_, ?_⟩
  · rw [spGet_spSet_other (by decide), spGet_spSet_other (by decide),
      spGet_spSet_other (by decide), spGet_spSet_self]
  · rw [spGet_spSet_other (by decide), spGet_spSet_other (by decide), spGet_spSet_self]
  · rw [spGet_spSet_other (by decide), spGet_spSet_self]
  · rw [spGet_spSet_self]

theorem negotiatedParams_filterKey {k : String}
    (hk : strippedKeys.contains (lowerStr k) = false) (o rid : String) (lay : Option String) :
    filterKey (negotiatedParams o rid lay) k = filterKey (parseQuery (jsSplitQ o).2) k := by
  have hne : ∀ key : String, strippedKeys.contains (lowerStr key) = true → k ≠ key := by
    intro key hkey he
    rw [he, hkey] at hk
    exact Bool.noConfusion hk
  unfold negotiatedParams
  rw [filterKey_spSet (hne "TYPENAMES" (by decide)),
    filterKey_spSet (hne "REQUEST" (by decide)),
    filterKey_spSet (hne "VERSION" (by decide)),
    filterKey_spSet (hne "SERVICE" (by decide))]
  apply filterKey_foldl_spDelete
  intro k' hk'
  exact hne k' (List.mem_filter.mp hk').2

theorem testParamsOf_filterKey {k : String}
    (hk : strippedKeys.contains (lowerStr k) = false) (o rid : String) (lay : Option String)
    (f : String × String) :
    filterKey (testParamsOf o rid lay f) k = filterKey (parseQuery (jsSplitQ o).2) k := by
  have hne : k ≠ "OUTPUTFORMAT" := by
    intro he
    rw [he] at hk
    exact Bool.noConfusion ((by decide : strippedKeys.contains (lowerStr "OUTPUTFORMAT") = true) ▸ hk)
  unfold testParamsOf
  rw [filterKey_spSet hne, negotiatedParams_filterKey hk]

/-! ### Helper lemmas: classifier -/

/-- The formats the classifier can assign. -/
def classifyFormats : List String :=
  ["geojson", "csv", "shapefile", "kml", "json", "wfs_service", "unknown"]

theorem classifyLink_url (u p n : String) : (classifyLink u p n).url = u := by
  unfold classifyLink
  dsimp only
  repeat' split
  all_goals rfl

theorem classifyLink_format_mem (u p n : String) :
    (classifyLink u p n).format ∈ classifyFormats := by
  unfold classifyLink
  dsimp only
  repeat' split
  all_goals simp [classifyFormats]

theorem classifyLink_api_not_unknown {u p n : String}
    (hap : includesStr (lowerStr u) "/api/data/" = true) :
    (classifyLink u p n).format ≠ "unknown" := by
  unfold classifyLink
  dsimp only
  by_cases h1 : includesStr (lowerStr u) "service=wfs" = true ∧ includesStr (lowerStr u) "outputformat=" = true
  · rw [if_pos h1]
    repeat' split
    all_goals simp
  · rw [if_neg h1, if_pos (Or.inl hap)]
    simp

theorem classifyLink_unknown_no_api {u p n : String}
    (h : (classifyLink u p n).format = "unknown") :
    includesStr u "/api/data/" = false := by
  cases hap : includesStr u "/api/data/"
  · rfl
  · exfalso
    have hl := includesStr_lower hap
    rw [show lowerStr "/api/data/" = "/api/data/" from by decide] at hl
    exact classifyLink_api_not_unknown hl h

theorem analyzeLink_ok_some {lw : JVal} {c : DownloadCandidate}
    (h : analyzeLink lw = .ok (some c)) : ∃ u p n, c = classifyLink u p n := by
  unfold analyzeLink at h
  dsimp only at h
  repeat' split at h
  all_goals first
  | exact Except.noConfusion h
  | (injection h with h; exact Option.noConfusion h)
  | (injection h with h; injection h with h; exact ⟨_, _, _, h.symm⟩)

theorem analyzeAll_mem : ∀ {ls : List JVal} {cs : List DownloadCandidate},
    analyzeAll ls = .ok cs → ∀ c ∈ cs, ∃ u p n, c = classifyLink u p n := by
  intro ls
  induction ls with
  | nil =>
    intro cs h c hc
    unfold analyzeAll at h
    injection h with h
    subst h
    exact absurd hc (List.not_mem_nil c)
  | cons l rest ih =>
    intro cs h c hc
    unfold analyzeAll at h
    split at h
    · exact Except.noConfusion h
    · exact ih h c hc
    · rename_i c0 heq
      split at h
      · exact Except.noConfusion h
      · rename_i cs0 heq2
        injection h with h
        subst h
        rcases List.mem_cons.mp hc with h1 | h1
        · subst h1; exact analyzeLink_ok_some heq
        · exact ih heq2 c h1

/-! ### Helper lemmas: sorting -/

theorem mem_sortCandidates {c : DownloadCandidate} {l : List DownloadCandidate} :
    c ∈ sortCandidates l ↔ c ∈ l :=
  (List.perm_insertionSort _ l).mem_iff

theorem length_sortCandidates (l : List DownloadCandidate) :
    (sortCandidates l).length = l.length :=
  (List.perm_insertionSort _ l).length_eq

theorem filter_orderedInsert (n : Nat) (x : DownloadCandidate) (l : List DownloadCandidate) :
    (List.orderedInsert (fun a b => b.score ≤ a.score) x l).filter (fun c => c.score = n) =
      if x.score = n then x :: l.filter (fun c => c.score = n)
      else l.filter (fun c => c.score = n) := by
  induction l with
  | nil =>
    by_cases hx : x.score = n <;> simp [List.orderedInsert, List.filter_cons, hx]
  | cons b rest ih =>
    unfold List.orderedInsert
    by_cases hr : b.score ≤ x.score
    · rw [if_pos hr]
      by_cases hx : x.score = n <;> simp [List.filter_cons, hx]
    · rw [if_neg hr]
      by_cases hx : x.score = n
      · have hb : ¬ (b.score = n) := by omega
        simp [List.filter_cons, hb, hx, ih]
      · by_cases hb : b.score = n <;> simp [List.filter_cons, hb, hx, ih]

theorem sortCandidates_stable (n : Nat) (l : List DownloadCandidate) :
    (sortCandidates l).filter (fun c => c.score = n) = l.filter (fun c => c.score = n) := by
  unfold sortCandidates
  induction l with
  | nil => rfl
  | cons x rest ih =>
    unfold List.insertionSort
    rw [filter_orderedInsert]
    unfold sortCandidates at ih
    by_cases hx : x.score = n <;> simp [List.filter_cons, hx, ih]

/-! ### Helper lemmas: selection loop and post-processing -/

theorem selectLoop_done_some {net : Net} {rid : String} :
    ∀ (l : List DownloadCandidate) (best : Option DownloadCandidate) (c : DownloadCandidate),
      (selectLoop net rid best l).1 = .done (some c) →
      ((isUrlValid net c.url false).1 = true ∧ c ∈ l) ∨ best = some c := by
  intro l
  induction l with
  | nil =>
    intro best c h
    unfold selectLoop at h
    dsimp only at h
    injection h with h
    right
    exact h
  | cons c0 rest ih =>
    intro best c h
    unfold selectLoop at h
    dsimp only at h
    by_cases h1 : c0.format = "wfs_service"
    · rw [if_pos h1] at h
      by_cases hv : (isUrlValid net c0.url false).1 = true
      · rw [if_pos hv] at h
        dsimp only at h
        injection h with h
        injection h with h
        subst h
        exact Or.inl ⟨hv, List.mem_cons_self _ _⟩
      · rw [if_neg hv] at h
        split at h
        · exact SelOut.noConfusion h
        · dsimp only at h
          rcases ih best c h with ⟨hva, hm⟩ | hb
          · exact Or.inl ⟨hva, List.mem_cons_of_mem _ hm⟩
          · exact Or.inr hb
    · rw [if_neg h1, if_pos h1] at h
      by_cases hv : (isUrlValid net c0.url false).1 = true
      · rw [if_pos hv] at h
        dsimp only at h
        injection h with h
        injection h with h
        subst h
        exact Or.inl ⟨hv, List.mem_cons_self _ _⟩
      · rw [if_neg hv] at h
        dsimp only at h
        rcases ih best c h with ⟨hva, hm⟩ | hb
        · exact Or.inl ⟨hva, List.mem_cons_of_mem _ hm⟩
        · exact Or.inr hb

theorem selectLoop_trace_le (net : Net) (rid : String) :
    ∀ (l : List DownloadCandidate) (best : Option DownloadCandidate),
      (selectLoop net rid best l).2.length ≤ 14 * l.length := by
  intro l
  induction l with
  | nil => intro best; simp [selectLoop]
  | cons c0 rest ih =>
    intro best
    unfold selectLoop
    dsimp only
    have hv1 := isUrlValid_trace_le net c0.url false
    by_cases h1 : c0.format = "wfs_service"
    · rw [if_pos h1]
      by_cases hv : (isUrlValid net c0.url false).1 = true
      · rw [if_pos hv]
        dsimp only
        simp only [List.length_cons]
        omega
      · rw [if_neg hv]
        have hw := negotiate_trace_le net c0.url rid c0.layerName
        split
        · dsimp only
          simp only [List.length_append, List.length_cons]
          omega
        · dsimp only
          have hs := ih best
          simp only [List.length_append, List.length_cons]
          omega
    · rw [if_neg h1, if_pos h1]
      by_cases hv : (isUrlValid net c0.url false).1 = true
      · rw [if_pos hv]
        dsimp only
        simp only [List.length_cons]
        omega
      · rw [if_neg hv]
        dsimp only
        have hs := ih best
        simp only [List.length_append, List.length_cons]
        omega

theorem finishStage_not_unknown (net : Net) (url : String) {fmt : String}
    (hf : fmt ≠ "unknown") :
    finishStage net url fmt = (.ok (some ⟨url, fmt⟩), []) := by
  unfold finishStage
  rw [if_neg hf]

theorem finishStage_unknown (net : Net) (url : String) :
    finishStage net url "unknown" =
      (match (detectFormatFromHeaders net url).1 with
        | some f => .ok (some ⟨url, f⟩)
        | none => .ok none,
       (detectFormatFromHeaders net url).2) := by
  unfold finishStage
  rw [if_pos rfl]
  dsimp only
  cases hd : (detectFormatFromHeaders net url).1 <;> rfl

theorem finishStage_trace_le (net : Net) (url fmt : String) :
    (finishStage net url fmt).2.length ≤ 1 := by
  unfold finishStage
  split
  · dsimp only
    have := detect_trace_le net url
    split <;> dsimp only <;> omega
  · simp

theorem finishStage_ok (net : Net) (url fmt : String) :
    ∃ o, (finishStage net url fmt).1 = .ok o := by
  unfold finishStage
  split
  · dsimp only
    split <;> exact ⟨_, rfl⟩
  · exact ⟨_, rfl⟩

theorem postProcess_ok {net : Net} {best : DownloadCandidate}
    (hp : (parseUrl net best.url).isSome = true) :
    ∃ o, (postProcess net best).1 = .ok o := by
  unfold postProcess
  split
  · cases hpp : parseUrl net best.url
    · rw [hpp] at hp
      exact absurd hp (by simp)
    · dsimp only
      split
      · dsimp only
        exact finishStage_ok net _ _
      · dsimp only
        exact finishStage_ok net _ _
  · exact finishStage_ok net _ _

theorem postProcess_trace_le (net : Net) (best : DownloadCandidate) :
    (postProcess net best).2.length ≤ 1 := by
  unfold postProcess
  split
  · cases hpp : parseUrl net best.url
    · simp
    · rename_i uo
      dsimp only
      have hd := detect_trace_le net (urlToString ⟨uo.base, spDelete uo.params "format"⟩)
      split
      · rename_i detected heq
        rw [finishStage_not_unknown net _ (detect_ne_unknown heq)]
        simp only [List.length_append, List.length_nil]
        omega
      · rw [finishStage_not_unknown net _ (by decide : ("shapefile" : String) ≠ "unknown")]
        simp only [List.length_append, List.length_nil]
        omega
  · exact finishStage_trace_le net _ _

theorem postProcess_format {net : Net} {best : DownloadCandidate} {r : UrlFmt}
    (h : (postProcess net best).1 = .ok (some r)) :
    r.format ∈ sniffFormats ∨ r.format = "shapefile" ∨
      (r.format = best.format ∧ best.format ≠ "unknown") := by
  unfold postProcess at h
  split at h
  · cases hpp : parseUrl net best.url <;> rw [hpp] at h
    · exact Except.noConfusion h
    · rename_i uo
      dsimp only at h
      split at h
      · rename_i detected heq
        rw [finishStage_not_unknown net _ (detect_ne_unknown heq)] at h
        dsimp only at h
        injection h with h
        injection h with h
        subst h
        exact Or.inl (detect_mem_sniffFormats heq)
      · rw [finishStage_not_unknown net _ (by decide : ("shapefile" : String) ≠ "unknown")] at h
        dsimp only at h
        injection h with h
        injection h with h
        subst h
        exact Or.inr (Or.inl rfl)
  · by_cases hu : best.format = "unknown"
    · rw [hu, finishStage_unknown net best.url] at h
      dsimp only at h
      split at h
      · rename_i f heq
        injection h with h
        injection h with h
        subst h
        exact Or.inl (detect_mem_sniffFormats heq)
      · injection h with h
        exact Option.noConfusion h
    · rw [finishStage_not_unknown net best.url hu] at h
      dsimp only at h
      injection h with h
      injection h with h
      subst h
      exact Or.inr (Or.inr ⟨rfl, hu⟩)

theorem postProcess_unknown {net : Net} {best : DownloadCandidate}
    (hu : best.format = "unknown") (hna : includesStr best.url "/api/data/" = false) :
    postProcess net best =
      (match (detectFormatFromHeaders net best.url).1 with
        | some f => .ok (some ⟨best.url, f⟩)
        | none => .ok none,
       (detectFormatFromHeaders net best.url).2) := by
  unfold postProcess
  rw [if_neg (by simp [hna]), hu]
  exact finishStage_unknown net best.url

theorem selectLoop_negotiated {net : Net} {rid : String} :
    ∀ (l : List DownloadCandidate) (best : Option DownloadCandidate) (r : UrlFmt),
      (selectLoop net rid best l).1 = .negotiated r →
      ∃ c ∈ l, (negotiateWfsFormat net c.url rid c.layerName).1 = some r := by
  intro l
  induction l with
  | nil =>
    intro best r h
    unfold selectLoop at h
    dsimp only at h
    exact SelOut.noConfusion h
  | cons c0 rest ih =>
    intro best r h
    unfold selectLoop at h
    dsimp only at h
    by_cases h1 : c0.format = "wfs_service"
    · rw [if_pos h1] at h
      by_cases hv : (isUrlValid net c0.url false).1 = true
      · rw [if_pos hv] at h
        dsimp only at h
        exact SelOut.noConfusion h
      · rw [if_neg hv] at h
        split at h
        · rename_i r0 heq
          dsimp only at h
          injection h with h
          subst h
          exact ⟨c0, List.mem_cons_self _ _, heq⟩
        · dsimp only at h
          rcases ih best r h with ⟨c, hm, hc⟩
          exact ⟨c, List.mem_cons_of_mem _ hm, hc⟩
    · rw [if_neg h1, if_pos h1] at h
      by_cases hv : (isUrlValid net c0.url false).1 = true
      · rw [if_pos hv] at h
        dsimp only at h
        exact SelOut.noConfusion h
      · rw [if_neg hv] at h
        dsimp only at h
        rcases ih best r h with ⟨c, hm, hc⟩
        exact ⟨c, List.mem_cons_of_mem _ hm, hc⟩

theorem prepStage_cands {metadata : JVal} {cands : List DownloadCandidate}
    (h : prepStage metadata = .ok (some cands)) :
    ∃ dinfo, dinfoOf metadata = some dinfo ∧ analyzeAll (allLinksOf dinfo) = .ok cands := by
  unfold prepStage at h
  cases hd : dinfoOf metadata <;> rw [hd] at h
  · injection h with h
    exact Option.noConfusion h
  · rename_i dinfo
    dsimp only at h
    by_cases ht : truthy dinfo = true
    · rw [if_neg (by simp [ht])] at h
      cases hdf : declaredFormatsOf dinfo <;> rw [hdf] at h
      · exact Except.noConfusion h
      · dsimp only at h
        by_cases he : (allLinksOf dinfo).isEmpty
        · rw [if_pos he] at h
          injection h with h
          exact Option.noConfusion h
        · rw [if_neg he] at h
          cases ha : analyzeAll (allLinksOf dinfo) <;> rw [ha] at h
          · exact Except.noConfusion h
          · injection h with h
            injection h with h
            subst h
            exact ⟨dinfo, rfl, ha⟩
    · rw [if_pos (by simp [ht])] at h
      injection h with h
      exact Option.noConfusion h

-- concrete inputs for counterexamples and witnesses
def netAllOk : Net :=
  ⟨fun _ => true, fun _ _ => some ⟨200, "", ""⟩, fun _ _ => some ⟨200, "data", "application/json"⟩⟩

def mkLink (url protocol : String) : JVal :=
  .obj [("linkage", .obj [("URL", .str url)]), ("protocol", .str protocol)]

def mkMeta (links : List JVal) : JVal :=
  .obj [("MD_Metadata", .obj [("distributionInfo", .obj [("MD_Distribution", .obj
    [("transferOptions", .obj [("MD_DigitalTransferOptions", .obj [("onLine", .arr links)])])])])])]

def mdC1 : JVal := mkMeta [mkLink "https://example.com/wfs?service=WFS&outputformat=GML2" ""]

/-! ### Format universes for the main resolution theorem -/

/-- Every format a resolution result can carry. -/
def resolvedFormats : List String :=
  ["geojson", "shapefile", "csv", "kml", "json", "tsv", "xlsx", "xls", "ods", "gpx", "kmz",
   "wfs_service"]

theorem sniff_sub_resolved : ∀ x ∈ sniffFormats, x ∈ resolvedFormats := by decide

theorem classify_sub_resolved :
    ∀ x ∈ classifyFormats, x ≠ "unknown" → x ∈ resolvedFormats := by decide

theorem negotiated_sub_resolved :
    ∀ x ∈ (["geojson", "shapefile", "csv", "kml"] : List String), x ∈ resolvedFormats := by decide

theorem resolved_not_unknown : ∀ x ∈ resolvedFormats, x ≠ "unknown" := by decide

/-! ### Claim C1 -/

/-- Claim C1, as stated, is false on the code: a raw-WFS candidate whose URL
answers the plain HEAD probe is accepted and returned with format
`wfs_service` — this variant has no post-acceptance negotiation step.  Here
the single link `https://example.com/wfs?service=WFS&outputformat=GML2`
(classified by rule 1 with score 50 and format `wfs_service` because its
output format names none of geojson/json/csv/zip/shape) is reachable, and
resolution returns `{url, format: 'wfs_service'}`. -/
theorem findBestDownloadUrl_returns_wfs_service :
    (findBestDownloadUrl netAllOk mdC1 "rid").1 =
      .ok (some ⟨"https://example.com/wfs?service=WFS&outputformat=GML2", "wfs_service"⟩) := by
  rfl

/-- Claim C1 (amended): every call produces exactly one outcome (the
embedding is a total function into result-or-absence, exceptions apart), and
the format of a returned pair is never `unknown`; it is a member of the
download-format enumeration extended with `wfs_service`, which the code does
return whenever a raw-WFS candidate passes the plain reachability probe. -/
theorem findBestDownloadUrl_format_resolved (net : Net) (metadata : JVal) (resourceId : String)
    (r : UrlFmt) (h : (findBestDownloadUrl net metadata resourceId).1 = .ok (some r)) :
    r.format ≠ "unknown" ∧ r.format ∈ resolvedFormats := by
  suffices hs : r.format ∈ resolvedFormats from ⟨resolved_not_unknown r.format hs, hs⟩
  unfold findBestDownloadUrl at h
  cases hp : prepStage metadata <;> rw [hp] at h
  · exact Except.noConfusion h
  · rename_i o
    cases o
    · injection h with h
      exact Option.noConfusion h
    · rename_i cands
      try dsimp only at h
      by_cases hemp : (sortCandidates cands).isEmpty
      · rw [if_pos hemp] at h
        injection h with h
        exact Option.noConfusion h
      · rw [if_neg hemp] at h
        try dsimp only at h
        split at h
        · rename_i r0 heq
          try dsimp only at h
          injection h with h
          injection h with h
          subst h
          rcases selectLoop_negotiated _ _ _ heq with ⟨c, _, hc⟩
          exact negotiated_sub_resolved _ (negotiate_some_format hc)
        · injection h with h
          exact Option.noConfusion h
        · rename_i best heq
          try dsimp only at h
          rcases postProcess_format h with hs | hs | ⟨hs, hu⟩
          · exact sniff_sub_resolved _ hs
          · rw [hs]; decide
          · rw [hs]
            rcases selectLoop_done_some _ _ _ heq with ⟨_, hm⟩ | hb
            · have hmem := mem_sortCandidates.mp hm
              rcases prepStage_cands hp with ⟨dinfo, _, ha⟩
              rcases analyzeAll_mem ha best hmem with ⟨u, p, n, hcl⟩
              have hfm := classifyLink_format_mem u p n
              rw [← hcl] at hfm
              exact classify_sub_resolved _ hfm hu
            · exact Option.noConfusion hb

/-- Witness for the amended claim C1 at the concrete raw-WFS input. -/
theorem findBestDownloadUrl_format_resolved_witness :
    ("wfs_service" : String) ≠ "unknown" ∧ ("wfs_service" : String) ∈ resolvedFormats :=
  findBestDownloadUrl_format_resolved netAllOk mdC1 "rid"
    ⟨"https://example.com/wfs?service=WFS&outputformat=GML2", "wfs_service"⟩ (by rfl)

/-! ### Claim C9 -/

/-- Claim C9: sorting the candidate list by descending score is stable — for
every score, the subsequence of candidates carrying that score is exactly the
same (same elements, same order) before and after `sortCandidates`, so two
candidates with equal score keep their extraction order. -/
theorem sortCandidates_score_stable (n : Nat) (l : List DownloadCandidate) :
    (sortCandidates l).filter (fun c => c.score = n) = l.filter (fun c => c.score = n) :=
  sortCandidates_stable n l

/-! ### Claim C4 -/

/-- Claim C4: WFS format negotiation (i) leaves no pre-existing parameter
with a stripped key — any remaining pair whose key matches
service/request/version/typename/typenames/outputformat/srsname
case-insensitively is one of the four canonical WFS pairs, (ii) sets
`SERVICE=WFS`, `VERSION=2.0.0`, `REQUEST=GetFeature` and `TYPENAMES` to the
layer name when one is present (a missing or empty layer name falls back to
the resource id, mirroring the source's `layerName || resourceId`),
(iii) tries the fixed ordered token list — five GeoJSON variants, then four
shapefile/ZIP variants, then two CSV, then two KML — and (iv) returns the
URL and mapped format of the FIRST token whose service-test probe succeeds,
and `none` when `find?` fails, i.e. when every token fails. -/
theorem negotiateWfsFormat_contract (net : Net) (originalUrl resourceId : String)
    (layerName : Option String) :
    (∀ kv ∈ negotiatedParams originalUrl resourceId layerName,
        strippedKeys.contains (lowerStr kv.1) = true →
          kv ∈ [("SERVICE", "WFS"), ("VERSION", "2.0.0"), ("REQUEST", "GetFeature"),
                ("TYPENAMES", layerOr layerName resourceId)]) ∧
    spGet (negotiatedParams originalUrl resourceId layerName) "SERVICE" = some "WFS" ∧
    spGet (negotiatedParams originalUrl resourceId layerName) "VERSION" = some "2.0.0" ∧
    spGet (negotiatedParams originalUrl resourceId layerName) "REQUEST" = some "GetFeature" ∧
    spGet (negotiatedParams originalUrl resourceId layerName) "TYPENAMES" =
      some (layerOr layerName resourceId) ∧
    wfsFormatsToTry.map Prod.snd =
      ["geojson", "geojson", "geojson", "geojson", "geojson",
       "shapefile", "shapefile", "shapefile", "shapefile", "csv", "csv", "kml", "kml"] ∧
    (negotiateWfsFormat net originalUrl resourceId layerName).1 =
      (wfsFormatsToTry.find?
          (fun f => (isUrlValid net (testUrlOf originalUrl resourceId layerName f) true).1)).map
        (fun f => (⟨testUrlOf originalUrl resourceId layerName f, f.2⟩ : UrlFmt)) := by
  refine ⟨fun kv hm hs => negotiatedParams_stripped hm hs, ?_, ?_, ?_, ?_, by decide, ?_⟩
  · exact (negotiatedParams_canonical originalUrl resourceId layerName).1
  · exact (negotiatedParams_canonical originalUrl resourceId layerName).2.1
  · exact (negotiatedParams_canonical originalUrl resourceId layerName).2.2.1
  · exact (negotiatedParams_canonical originalUrl resourceId layerName).2.2.2
  · exact tryFormats_fst net originalUrl resourceId layerName wfsFormatsToTry

/-- Witness for claim C4 at a concrete negotiation input. -/
theorem negotiateWfsFormat_contract_witness :
    spGet (negotiatedParams "https://example.org/wfs?service=WFS&foo=bar" "parcelles-2024" none)
      "SERVICE" = some "WFS" :=
  (negotiateWfsFormat_contract netAllOk "https://example.org/wfs?service=WFS&foo=bar"
    "parcelles-2024" none).2.1

/-! ### Claim C5 -/

/-- Claim C5: `isUrlValid` is a total boolean (the embedding absorbs every
oracle-level fault).  Plain mode issues a HEAD with a 3000 ms timeout and is
true exactly when the URL is parseable and a response arrives with a 2xx-3xx
status.  Service-test mode on an unparseable URL is false with no round trip;
on a parseable URL it issues a GET against the URL with `COUNT=1` and
`MAXFEATURES=1` forced, with a 5000 ms timeout, and is true exactly when a
response arrives whose status is accepted (below 500 by `validateStatus`,
and in fact below 400 by the explicit status check), whose body carries no
`ExceptionReport` / `ServiceException` marker, and which does not answer a
JSON-family `OUTPUTFORMAT` request with an XML content type. -/
theorem isUrlValid_contract (net : Net) (url : String) :
    ((isUrlValid net url false).1 = true ↔
      ((parseUrl net url).isSome = true ∧
        ∃ r, net.headResp url 3000 = some r ∧ 200 ≤ r.status ∧ r.status < 400)) ∧
    (parseUrl net url = none → isUrlValid net url true = (false, [])) ∧
    (∀ u0, parseUrl net url = some u0 →
      ((isUrlValid net url true).1 = true ↔
        (∃ r, net.getResp (urlToString ⟨u0.base, withCMF u0.params⟩) 5000 = some r ∧
          r.status < 400 ∧
          includesStr r.body "ExceptionReport" = false ∧
          includesStr r.body "ServiceException" = false ∧
          ¬(includesStr ((spGet (withCMF u0.params) "OUTPUTFORMAT").getD "") "json" = true ∧
            includesStr r.contentType "xml" = true)))) :=
  ⟨isUrlValid_plain_iff net url,
   fun h => isUrlValid_wfs_parse_none h,
   fun u0 h => isUrlValid_wfs_iff net url u0 h⟩

/-- Witness for claim C5: a 204 HEAD answer makes the plain probe succeed. -/
theorem isUrlValid_contract_witness :
    (isUrlValid ⟨fun _ => true, fun _ _ => some ⟨204, "", ""⟩, fun _ _ => none⟩
      "https://h/x" false).1 = true :=
  (isUrlValid_contract ⟨fun _ => true, fun _ _ => some ⟨204, "", ""⟩, fun _ _ => none⟩
      "https://h/x").1.mpr ⟨rfl, ⟨204, "", ""⟩, rfl, by decide, by decide⟩

/-! ### Claim C10 -/

/-- Claim C10 (frame property of negotiation): every query parameter of the
original URL whose lowercased key is not stripped is preserved with the same
key, value and relative order in the parameter list of every constructed
test URL, and the returned URL is the test URL of one of the tried tokens
(hence enjoys the same preservation).  `COUNT` / `MAXFEATURES` are forced
only inside the service-test probe (`withCMF` in `isUrlValid`), not in
`testParamsOf`, so with `k = "COUNT"` or `k = "MAXFEATURES"` this theorem
also shows the returned URL carries them only if the original did. -/
theorem negotiateWfsFormat_frame (net : Net) (originalUrl resourceId : String)
    (layerName : Option String) (k : String)
    (hk : strippedKeys.contains (lowerStr k) = false) :
    (∀ f ∈ wfsFormatsToTry,
      filterKey (testParamsOf originalUrl resourceId layerName f) k =
        filterKey (parseQuery (jsSplitQ originalUrl).2) k) ∧
    (∀ r : UrlFmt, (negotiateWfsFormat net originalUrl resourceId layerName).1 = some r →
      ∃ f ∈ wfsFormatsToTry, r.url = testUrlOf originalUrl resourceId layerName f ∧
        filterKey (testParamsOf originalUrl resourceId layerName f) k =
          filterKey (parseQuery (jsSplitQ originalUrl).2) k) := by
  refine ⟨fun f _ => testParamsOf_filterKey hk originalUrl resourceId layerName f, ?_⟩
  intro r h
  rcases negotiate_some h with ⟨f, hf, hr⟩
  subst hr
  exact ⟨f, hf, rfl, testParamsOf_filterKey hk originalUrl resourceId layerName f⟩

/-- Witness for claim C10: the parameter `foo=bar` survives negotiation of
a URL whose `service` parameter is stripped. -/
theorem negotiateWfsFormat_frame_witness :
    filterKey (testParamsOf "https://e/wfs?foo=bar&service=OLD" "rid" none ("geojson", "geojson"))
        "foo" =
      filterKey (parseQuery (jsSplitQ "https://e/wfs?foo=bar&service=OLD").2) "foo" :=
  (negotiateWfsFormat_frame netAllOk "https://e/wfs?foo=bar&service=OLD" "rid" none "foo"
    (by decide)).1 ("geojson", "geojson") (by decide)

/-! ### Claim C3 -/

/-- Modelled from the spec's words, for comparison with the source rule
(claim C3): the format of a score-50 candidate is "inferred from the
output-format value itself (`geojson`/`csv`/`shapefile`/else
`wfs_service`)" — i.e. from the value of the `outputformat` query parameter
of the (lowercased) URL, not from the rest of the URL. -/
def specC3FormatFromValue (url : String) : String :=
  let v := ((parseQuery (splitFirstQ (lowerStr url)).2).find?
      (fun p => p.1 = "outputformat")).map (fun p => p.2) |>.getD ""
  if includesStr v "geojson" then "geojson"
  else if includesStr v "csv" then "csv"
  else if includesStr v "shape" ∨ includesStr v "zip" then "shapefile"
  else "wfs_service"

/-- Claim C3, as stated, is false on the code: the source infers the format
from substrings of the WHOLE lowercased URL.  For
`https://h/wfs?service=wfs&outputformat=csv&style=json` the output-format
value is `csv` (the spec reading yields `csv`), but the code sees the
substring `json` elsewhere in the URL and classifies the candidate as
`geojson`. -/
theorem analyzeLink_rule1_not_value_based :
    (classifyLink "https://h/wfs?service=wfs&outputformat=csv&style=json" "" "").format
        = "geojson" ∧
      specC3FormatFromValue "https://h/wfs?service=wfs&outputformat=csv&style=json" = "csv" := by
  constructor
  · rfl
  · rfl

/-- The source's whole-URL format inference for rule 1
(amended claim C3). -/
def urlSubstringFormat (url : String) : String :=
  if includesStr (lowerStr url) "geojson" = true ∨ includesStr (lowerStr url) "json" = true then
    "geojson"
  else if includesStr (lowerStr url) "csv" = true then "csv"
  else if includesStr (lowerStr url) "zip" = true ∨ includesStr (lowerStr url) "shape" = true then
    "shapefile"
  else "wfs_service"

/-- Claim C3 (amended): a raw link whose URL contains both `service=wfs` and
`outputformat=` (case-insensitively) is classified with score 50 and a
format inferred from substrings of the whole lowercased URL —
geojson/json anywhere → `geojson`, else csv → `csv`, else zip/shape →
`shapefile`, else `wfs_service`. -/
theorem analyzeLink_rule1 (url protocol nm : String)
    (h1 : includesStr (lowerStr url) "service=wfs" = true)
    (h2 : includesStr (lowerStr url) "outputformat=" = true) :
    classifyLink url protocol nm = ⟨url, urlSubstringFormat url, 50, none⟩ := by
  unfold classifyLink urlSubstringFormat
  dsimp only
  rw [if_pos ⟨h1, h2⟩]

/-- Witness for the amended claim C3. -/
theorem analyzeLink_rule1_witness :
    classifyLink "https://a/b?SERVICE=WFS&OUTPUTFORMAT=SHAPE-ZIP" "" "" =
      ⟨"https://a/b?SERVICE=WFS&OUTPUTFORMAT=SHAPE-ZIP",
       urlSubstringFormat "https://a/b?SERVICE=WFS&OUTPUTFORMAT=SHAPE-ZIP", 50, none⟩ :=
  analyzeLink_rule1 "https://a/b?SERVICE=WFS&OUTPUTFORMAT=SHAPE-ZIP" "" "" (by decide) (by decide)

/-! ### Claim C7 -/

/-- Claim C7: (i) a raw link with a non-empty URL matching none of the
classification guards is kept as an `unknown` candidate with score 1; and
(ii) whenever the accepted candidate of the validation loop has format
`unknown`, resolution runs the content-type sniffer on its URL and returns
the sniffed format on success and the absence value on failure. -/
theorem unknown_candidates_sniffed :
    (∀ url protocol nm : String, url ≠ "" →
      ¬(includesStr (lowerStr url) "service=wfs" = true ∧
        includesStr (lowerStr url) "outputformat=" = true) →
      ¬(includesStr (lowerStr url) "/api/data/" = true ∨
        includesStr (lowerStr url) "/api/records/" = true) →
      ¬(includesStr (lowerStr url) "shape-zip" = true ∨
        endsWithStr (lowerStr url) ".zip" = true ∨
        includesStr (lowerStr nm) "shapefile" = true) →
      ¬(includesStr (lowerStr url) "geojson" = true ∨ includesStr protocol "geo+json" = true ∨
        includesStr (lowerStr nm) "geojson" = true) →
      ¬(includesStr (lowerStr url) "/csv" = true ∨ includesStr (lowerStr url) ".csv" = true ∨
        includesStr protocol "text/csv" = true ∨ nm = "csv") →
      ¬(endsWithStr (lowerStr url) ".kml" = true ∨ includesStr protocol "kml" = true) →
      ¬((includesStr (lowerStr url) "/json" = true ∨ includesStr (lowerStr url) ".json" = true ∨
        includesStr protocol "application/json" = true ∨ lowerStr nm = "json") ∧
        ¬ includesStr (lowerStr url) "geojson" = true) →
      ¬(includesStr protocol "ogc:wfs" = true ∨ includesStr protocol "wfs" = true ∨
        includesStr (lowerStr url) "service=wfs" = true) →
      classifyLink url protocol nm = ⟨url, "unknown", 1, none⟩) ∧
    (∀ (net : Net) (metadata : JVal) (resourceId : String)
        (cands : List DownloadCandidate) (c : DownloadCandidate),
      prepStage metadata = .ok (some cands) →
      (selectLoop net resourceId none (sortCandidates cands)).1 = .done (some c) →
      c.format = "unknown" →
      (findBestDownloadUrl net metadata resourceId).1 =
        (match (detectFormatFromHeaders net c.url).1 with
          | some f => .ok (some ⟨c.url, f⟩)
          | none => .ok none)) := by
  constructor
  · intro url protocol nm hu h1 h2 h3 h4 h5 h6 h7 h8
    unfold classifyLink
    dsimp only
    rw [if_neg h1, if_neg h2, if_neg h3, if_neg h4, if_neg h5, if_neg h6, if_neg h7, if_neg h8]
  · intro net metadata resourceId cands c hp hsel hu
    have hprov : ∃ u p n, c = classifyLink u p n := by
      rcases selectLoop_done_some _ _ _ hsel with ⟨-, hm⟩ | hb
      · rcases prepStage_cands hp with ⟨dinfo, -, ha⟩
        exact analyzeAll_mem ha c (mem_sortCandidates.mp hm)
      · exact Option.noConfusion hb
    have hna : includesStr c.url "/api/data/" = false := by
      rcases hprov with ⟨u, p, n, hc⟩
      have hfu : (classifyLink u p n).format = "unknown" := by rw [← hc]; exact hu
      have := classifyLink_unknown_no_api hfu
      rw [hc, classifyLink_url u p n]
      exact this
    unfold findBestDownloadUrl
    rw [hp]
    dsimp only
    have hemp : (sortCandidates cands).isEmpty = false := by
      cases he : (sortCandidates cands).isEmpty
      · rfl
      · exfalso
        rw [List.isEmpty_iff] at he
        rw [he] at hsel
        unfold selectLoop at hsel
        dsimp only at hsel
        injection hsel with hsel
        exact Option.noConfusion hsel
    rw [hemp]
    rw [if_neg (by simp)]
    try dsimp only
    split
    · rename_i r0 heq
      rw [hsel] at heq
      exact SelOut.noConfusion heq
    · rename_i heq
      rw [hsel] at heq
      injection heq with heq
      exact Option.noConfusion heq
    · rename_i best heq
      rw [hsel] at heq
      injection heq with heq
      injection heq with heq
      subst heq
      try dsimp only
      rw [postProcess_unknown hu hna]

/-! ### Claim C2 -/

/-- Metadata whose single online resource declares
`protocol = { CharacterString: 42 }` (the XML parser's numeric coercion of
`<protocol><CharacterString>42</CharacterString></protocol>`). -/
def mdC2 : JVal :=
  mkMeta [.obj [("linkage", .obj [("URL", .str "https://example.com/data.bin")]),
                ("protocol", .obj [("CharacterString", .num 42)])]]

/-- Claim C2 fails on the code: `getText` returns `protocol.CharacterString`
unchecked, so with a numeric `CharacterString` the call
`getText(link.protocol).toLowerCase()` raises `TypeError`, which nothing in
`findBestDownloadUrl` catches — under EVERY modeled network behaviour the
resolver raises instead of returning a result or the absence value (and
before any network round trip). -/
theorem findBestDownloadUrl_raises_on_numeric_protocol (net : Net) (resourceId : String) :
    findBestDownloadUrl net mdC2 resourceId = (.error (), []) := rfl

/-! ### Claim C6 -/

/-- Metadata with `distributionInfo` present, no `transferOptions`, and a
`distributionFormat` whose name is numeric (`MD_Format.name.CharacterString
= 2024`). -/
def mdC6 : JVal :=
  .obj [("distributionInfo", .obj [("MD_Distribution", .obj
    [("distributionFormat", .obj [("MD_Format", .obj
      [("name", .obj [("CharacterString", .num 2024)])])])])])]

/-- Claim C6, as stated, is false on the code: this document's
`transferOptions` yields no online-resource links, yet resolution does not
return the absence value — the dead `declaredFormats` traversal runs first
and its `getText(...).toLowerCase()` raises `TypeError` on the numeric
format name.  No network call is issued (the trace is empty), and the
link extraction indeed yields nothing. -/
theorem findBestDownloadUrl_raises_before_absence :
    findBestDownloadUrl netAllOk mdC6 "rid" = (.error (), []) ∧
      allLinksOf ((dinfoOf mdC6).getD (.str "")) = [] := ⟨rfl, rfl⟩

/-- Claim C6 (amended): whenever the document reaches no candidates —
`distributionInfo` missing or falsy, or the extracted link list empty —
and the (dead) declared-format traversal does not fault, resolution returns
the absence value with an empty network trace: no probe, negotiation or
sniff request is issued. -/
theorem findBestDownloadUrl_absence_no_network (net : Net) (metadata : JVal)
    (resourceId : String)
    (h : ∀ d, dinfoOf metadata = some d → truthy d = true →
      (declaredFormatsOf d).isOk = true ∧ allLinksOf d = []) :
    findBestDownloadUrl net metadata resourceId = (.ok none, []) := by
  unfold findBestDownloadUrl prepStage
  cases hd : dinfoOf metadata
  · rfl
  · rename_i dinfo
    dsimp only
    by_cases ht : truthy dinfo = true
    · rcases h dinfo hd ht with ⟨hok, hemp⟩
      rw [if_neg (by simp [ht])]
      cases hdf : declaredFormatsOf dinfo
      · rw [hdf] at hok
        exact absurd hok (by simp [Except.isOk, Except.toBool])
      · dsimp only
        rw [if_pos (by simp [hemp])]
    · rw [if_pos (by simp [ht])]

/-- Witness for the amended claim C6: a document whose transfer options
carry an empty online list resolves to absence with an empty trace. -/
theorem findBestDownloadUrl_absence_no_network_witness :
    findBestDownloadUrl netAllOk (mkMeta []) "rid" = (.ok none, []) :=
  findBestDownloadUrl_absence_no_network netAllOk (mkMeta []) "rid"
    (by intro d hd ht; cases hd; exact ⟨rfl, rfl⟩)

/-! ### Claim C8 -/

/-- A network on which every probe fails: HEAD requests error out and every
WFS service test answers 200 with a `ServiceException` body. -/
def netAllFail : Net :=
  ⟨fun _ => true, fun _ _ => none, fun _ _ => some ⟨200, "ServiceException", "text/xml"⟩⟩

/-- Three raw-WFS links (rule 7: protocol mentions WFS, no output format). -/
def mdC8 : JVal :=
  mkMeta [mkLink "https://a/w1" "OGC:WFS", mkLink "https://a/w2" "OGC:WFS",
          mkLink "https://a/w3" "OGC:WFS"]

/-- Claim C8, as stated, is false on the code: with 3 candidates the claimed
budget is about 3 + 13 = 16 round trips, but each failed raw-WFS candidate
costs 1 plain probe + 13 negotiation probes and negotiation failure does NOT
stop the loop, so this resolution issues 42 round trips — over twice the
claimed bound, growing as 14 per WFS candidate. -/
theorem findBestDownloadUrl_trace_42 :
    (findBestDownloadUrl netAllFail mdC8 "rid").2.length = 42 ∧ candCount mdC8 = 3 := ⟨rfl, rfl⟩

/-- Claim C8 (amended): the number of network round trips of one resolution
call is bounded by (1 + the size of the 13-token negotiation list) per
scored candidate, plus one post-processing sniff: at most
`14 * candidates + 1`. -/
theorem findBestDownloadUrl_trace_bound (net : Net) (metadata : JVal) (resourceId : String) :
    (findBestDownloadUrl net metadata resourceId).2.length ≤
      (1 + wfsFormatsToTry.length) * candCount metadata + 1 := by
  unfold findBestDownloadUrl candCount
  cases hp : prepStage metadata
  · simp
  · rename_i o
    cases o
    · simp
    · rename_i cands
      try dsimp only
      by_cases hemp : (sortCandidates cands).isEmpty
      · rw [if_pos hemp]
        simp
      · rw [if_neg hemp]
        try dsimp only
        have hsel := selectLoop_trace_le net resourceId (sortCandidates cands) none
        rw [length_sortCandidates] at hsel
        split
        · try dsimp only
          simp only [wfsFormatsToTry, List.length_cons, List.length_nil]
          omega
        · try dsimp only
          simp only [wfsFormatsToTry, List.length_cons, List.length_nil]
          omega
        · rename_i best heq
          try dsimp only
          have hpp := postProcess_trace_le net best
          simp only [List.length_append, wfsFormatsToTry, List.length_cons, List.length_nil]
          omega

/-- Witness for claim C7: a generic link URL matching no rule is kept with
format `unknown` and score 1. -/
theorem unknown_candidates_sniffed_witness :
    classifyLink "https://example.org/resource" "" "" =
      ⟨"https://example.org/resource", "unknown", 1, none⟩ :=
  unknown_candidates_sniffed.1 "https://example.org/resource" "" "" (by decide) (by decide)
    (by decide) (by decide) (by decide) (by decide) (by decide) (by decide) (by decide)

/-! ### The absorption side of the never-raise design -/

theorem analyzeAll_error {e : Unit} :
    ∀ {ls : List JVal}, analyzeAll ls = .error e →
      ∃ link ∈ ls, analyzeLink link = .error e := by
  intro ls
  induction ls with
  | nil =>
    intro h
    unfold analyzeAll at h
    exact Except.noConfusion h
  | cons l rest ih =>
    intro h
    unfold analyzeAll at h
    cases hal : analyzeLink l <;> rw [hal] at h
    · try dsimp only at h
      injection h with h
      subst h
      exact ⟨l, List.mem_cons_self _ _, hal⟩
    · rename_i o
      cases o
      · try dsimp only at h
        rcases ih h with ⟨link, hm, he⟩
        exact ⟨link, List.mem_cons_of_mem _ hm, he⟩
      · try dsimp only at h
        cases ha : analyzeAll rest <;> rw [ha] at h
        · try dsimp only at h
          injection h with h
          subst h
          rcases ih ha with ⟨link, hm, he⟩
          exact ⟨link, List.mem_cons_of_mem _ hm, he⟩
        · exact Except.noConfusion h

theorem prepStage_error {metadata : JVal} {e : Unit} (h : prepStage metadata = .error e) :
    ∃ d, dinfoOf metadata = some d ∧ truthy d = true ∧
      (declaredFormatsOf d = .error e ∨ analyzeAll (allLinksOf d) = .error e) := by
  unfold prepStage at h
  cases hd : dinfoOf metadata <;> rw [hd] at h
  · exact Except.noConfusion h
  · rename_i dinfo
    dsimp only at h
    by_cases ht : truthy dinfo = true
    · rw [if_neg (by simp [ht])] at h
      cases hdf : declaredFormatsOf dinfo <;> rw [hdf] at h
      · try dsimp only at h
        injection h with h
        subst h
        exact ⟨dinfo, rfl, ht, Or.inl hdf⟩
      · dsimp only at h
        by_cases hemp : (allLinksOf dinfo).isEmpty
        · rw [if_pos hemp] at h
          exact Except.noConfusion h
        · rw [if_neg hemp] at h
          cases ha : analyzeAll (allLinksOf dinfo) <;> rw [ha] at h
          · try dsimp only at h
            injection h with h
            subst h
            exact ⟨dinfo, rfl, ht, Or.inr ha⟩
          · exact Except.noConfusion h
    · rw [if_pos (by simp [ht])] at h
      exact Except.noConfusion h

/-- The absorption guarantee behind claims C2 and C6: whenever the two
`getText`-based text reads cannot fault — the declared-format names and each
extracted link's URL / protocol / name values are plain strings, which is
what `analyzeLink link` and `declaredFormatsOf` succeeding expresses —
`findBestDownloadUrl` never raises, under EVERY modeled network behaviour:
all network faults are absorbed into probe failures.  In particular the
unguarded `new URL(url)` of the `/api/data/` branch cannot throw, because an
accepted candidate's URL has necessarily passed the plain probe, which only
succeeds on parseable URLs. -/
theorem findBestDownloadUrl_absorbs_network_faults (net : Net) (metadata : JVal)
    (resourceId : String)
    (hd : ∀ d, dinfoOf metadata = some d → truthy d = true →
      (declaredFormatsOf d).isOk = true ∧
        ∀ link ∈ allLinksOf d, (analyzeLink link).isOk = true) :
    ∃ o t, findBestDownloadUrl net metadata resourceId = (.ok o, t) := by
  unfold findBestDownloadUrl
  cases hp : prepStage metadata
  · rename_i e
    exfalso
    rcases prepStage_error hp with ⟨d, hdi, ht, herr | herr⟩
    · rcases hd d hdi ht with ⟨hok, -⟩
      rw [herr] at hok
      exact absurd hok (by simp [Except.isOk, Except.toBool])
    · rcases analyzeAll_error herr with ⟨link, hm, he⟩
      have h2 := (hd d hdi ht).2 link hm
      rw [he] at h2
      exact absurd h2 (by simp [Except.isOk, Except.toBool])
  · rename_i o
    cases o
    · exact ⟨none, [], rfl⟩
    · rename_i cands
      try dsimp only
      by_cases hemp : (sortCandidates cands).isEmpty
      · rw [if_pos hemp]
        exact ⟨none, [], rfl⟩
      · rw [if_neg hemp]
        try dsimp only
        split
        · rename_i r0 heq
          exact ⟨some r0, _, rfl⟩
        · exact ⟨none, _, rfl⟩
        · rename_i best heq
          have hprobe : (isUrlValid net best.url false).1 = true := by
            rcases selectLoop_done_some _ _ _ heq with ⟨hv, -⟩ | hb
            · exact hv
            · exact Option.noConfusion hb
          rcases postProcess_ok (isUrlValid_plain_parse hprobe) with ⟨o, ho⟩
          exact ⟨o, (selectLoop net resourceId none (sortCandidates cands)).2 ++
            (postProcess net best).2, by rw [ho]⟩
